import Mathlib

/-!
Verification of the MoltenVK swapchain manager (`MVKSwapchain.h`).

The development shallowly embeds the swapchain data model and its operations.
Functions whose bodies appear in the header (`getSurfaceStatus`,
`getIsSurfaceLost`, `getImageCount`, `getPresentableImage`) are translated
directly from that source.  Functions that the header only declares
(their bodies live in the implementation file, which is not part of the
given sources) are modelled from the specification; each such definition
carries a doc comment starting with `Modelled from the spec:`.
-/

/-- Vulkan result codes relevant to the swapchain surface. -/
inductive VkResult where
  | success
  | incomplete
  | notReady
  | timeout
  | suboptimalKHR
  | errorSurfaceLostKHR
  | errorDeviceLost
  | errorOutOfDateKHR
  | errorInitializationFailed
  deriving DecidableEq, Repr

/-- Two-dimensional pixel extent (`VkExtent2D`, width and height in pixels). -/
structure VkExtent2D where
  width : Nat
  height : Nat
  deriving DecidableEq, Repr

/-- Image handles (`VkImage`) are opaque; we model them as natural numbers. -/
abbrev VkImage : Type := Nat

/-- Logical state of one presentable swapchain image (spec section 3:
Available, Acquired, Presenting). -/
inductive SwapImageState where
  | available
  | acquired
  | presenting
  deriving DecidableEq, Repr

/-- Number of images: `getImageCount` returns `_presentableImages.size()`. -/
def getImageCount (presentableImages : List VkImage) : Nat :=
  presentableImages.length

/-- Image lookup: the source reads `_presentableImages[index]`, an index into
the image vector.  Lookup outside the vector has no defined result in the
source, so the embedding makes the function partial: `none` is the
out-of-range failure.  Modelled from the spec: the bracket operator of
`MVKSmallVector` is not among the given sources; the spec states that
`imageAt(index)` fails with an out-of-range error if `index ≥ count`. -/
def getPresentableImage (presentableImages : List VkImage) (index : Nat) :
    Option VkImage :=
  presentableImages.get? index

/-- Outcome of `getImages`: the result code, the value written back through
`pCount`, and the image handles written into the caller's buffer. -/
structure GetImagesOutcome where
  result : VkResult
  count : Nat
  written : List VkImage
  deriving DecidableEq, Repr

/-- Enumeration of swapchain images, translated from the contract documented
on `getImages` in the header: when `pSwapchainImages` is null only the true
count is reported; otherwise up to `pCount` handles are copied in index
order, `pCount` is updated to the number actually returned, and the result
is `VK_INCOMPLETE` when the number of images exceeds the caller's capacity,
`VK_SUCCESS` otherwise. -/
def getImages (presentableImages : List VkImage) (capacity : Nat)
    (hasDest : Bool) : GetImagesOutcome :=
  if ¬ hasDest then
    ⟨VkResult.success, getImageCount presentableImages, []⟩
  else
    let n := min capacity (getImageCount presentableImages)
    ⟨if capacity < getImageCount presentableImages then VkResult.incomplete
      else VkResult.success,
     n, presentableImages.take n⟩

/-- State of one swapchain instance: the fields of `MVKSwapchain` that the
acquisition, release and status operations read and write.  The owning
device's sticky configuration result (`_device->getConfigurationResult()`)
is an external collaborator and appears as the field `deviceConfigResult`;
the natural extent of the layer enters as the field `layerNaturalExtent`. -/
structure SwapchainState where
  imageStates : List SwapImageState
  surfaceLost : Bool
  isDeliberatelyScaled : Bool
  currentAcquisitionID : Nat
  deviceConfigResult : VkResult
  mtlLayerDrawableExtent : VkExtent2D
  layerNaturalExtent : VkExtent2D
  deriving DecidableEq, Repr

/-- Sticky surface-lost query, translated from the header:
`bool getIsSurfaceLost() { return _surfaceLost; }`. -/
def getIsSurfaceLost (s : SwapchainState) : Bool :=
  s.surfaceLost

/-- Modelled from the spec: `hasOptimalSurface` is declared in the header but
its body is not among the given sources.  Per the spec, `isOptimal()` is true
iff the swapchain's configured extent equals the surface's natural extent,
or the caller has explicitly opted into deliberate scaling
(`_isDeliberatelyScaled`), in which case it is optimal regardless of size. -/
def hasOptimalSurface (s : SwapchainState) : Bool :=
  s.isDeliberatelyScaled || decide (s.mtlLayerDrawableExtent = s.layerNaturalExtent)

/-- Surface status, translated directly from the header body:
first the device's configuration result if it is not success, then
surface-lost, then suboptimal, then success. -/
def getSurfaceStatus (s : SwapchainState) : VkResult :=
  if s.deviceConfigResult ≠ VkResult.success then s.deviceConfigResult
  else if getIsSurfaceLost s then VkResult.errorSurfaceLostKHR
  else if ¬ hasOptimalSurface s then VkResult.suboptimalKHR
  else VkResult.success

/-- Modelled from the spec: `getNextAcquisitionID` is declared in the header
but its body is not among the given sources.  The spec describes a
monotonically increasing 64-bit acquisition counter whose values are never
reused; minting a token increments `_currentAcquisitionID` and returns the
new value. -/
def getNextAcquisitionID (s : SwapchainState) : Nat × SwapchainState :=
  (s.currentAcquisitionID + 1,
   { s with currentAcquisitionID := s.currentAcquisitionID + 1 })

/-- Index of the first Available image, lowest index first (the spec's
deterministic selection policy for the acquisition sequencer). -/
def firstAvailableIndex (imgs : List SwapImageState) : Option Nat :=
  imgs.findIdx? (fun st => decide (st = SwapImageState.available))

/-- Outcome of `acquireNextImage`: result code, acquired image index and
minted acquisition token when successful, and the post-call state. -/
structure AcquireOutcome where
  result : VkResult
  imageIndex : Option Nat
  token : Option Nat
  state : SwapchainState
  deriving DecidableEq, Repr

/-- Modelled from the spec: `acquireNextImage` is declared in the header but
its body is not among the given sources.  Per the spec (sections 4.2 and 7):
device-level configuration errors take precedence over all other results;
a lost surface fails with surface-lost; otherwise the lowest-index Available
image is selected, transitioned to Acquired, and a fresh token is minted,
with a non-fatal suboptimal result when the surface geometry no longer
matches; if no image is Available the call returns not-ready for a zero
timeout and the timeout result once a positive timeout elapses, leaving the
state unchanged.  Blocking is not observable in the pure embedding: a state
with no Available image stays so for the duration of the wait. -/
def acquireNextImage (s : SwapchainState) (timeout : Nat) : AcquireOutcome :=
  if s.deviceConfigResult ≠ VkResult.success then
    ⟨s.deviceConfigResult, none, none, s⟩
  else if getIsSurfaceLost s then
    ⟨VkResult.errorSurfaceLostKHR, none, none, s⟩
  else
    match firstAvailableIndex s.imageStates with
    | some i =>
        let minted := getNextAcquisitionID s
        let s2 := { minted.2 with
          imageStates := minted.2.imageStates.set i SwapImageState.acquired }
        ⟨if hasOptimalSurface s then VkResult.success else VkResult.suboptimalKHR,
         some i, some minted.1, s2⟩
    | none =>
        ⟨if timeout = 0 then VkResult.notReady else VkResult.timeout,
         none, none, s⟩

/-- Test that an image is currently held by the caller or the compositor:
its state is Acquired or Presenting. -/
def imageHeld (s : SwapchainState) (i : Nat) : Bool :=
  decide (s.imageStates.get? i = some SwapImageState.acquired) ||
  decide (s.imageStates.get? i = some SwapImageState.presenting)

/-- Modelled from the spec: `releaseImages` is declared in the header but its
body is not among the given sources.  Per the spec (section 4.3), each listed
index must currently be Acquired or Presenting and is transitioned back to
Available; releasing an image not currently held is a double-release
precondition violation, embedded as `none`. -/
def releaseImages (s : SwapchainState) (indices : List Nat) :
    Option SwapchainState :=
  if indices.all (fun i => imageHeld s i) then
    let released :=
      indices.foldl (fun imgs i => imgs.set i SwapImageState.available)
        s.imageStates
    some { s with imageStates := released }
  else
    none

/-- Modelled from the spec: `markSurfaceLost` sets the sticky surface-lost
flag (spec section 4.4); the header declares only the atomic `_surfaceLost`
flag it latches. -/
def markSurfaceLost (s : SwapchainState) : SwapchainState :=
  { s with surfaceLost := true }

/-- Presentation of an acquired image transitions it Acquired → Presenting
(spec section 4.3). -/
def presentImage (s : SwapchainState) (i : Nat) : SwapchainState :=
  if s.imageStates.get? i = some SwapImageState.acquired then
    { s with imageStates := s.imageStates.set i SwapImageState.presenting }
  else s

/-- Compositor confirmation transitions a Presenting image back to Available
(spec section 4.3). -/
def presentComplete (s : SwapchainState) (i : Nat) : SwapchainState :=
  if s.imageStates.get? i = some SwapImageState.presenting then
    { s with imageStates := s.imageStates.set i SwapImageState.available }
  else s

/-- Operations a caller (or the compositor's delivery path) can perform on a
swapchain instance. -/
inductive SwapOp where
  | acquire (timeout : Nat)
  | release (indices : List Nat)
  | present (index : Nat)
  | presentDone (index : Nat)
  | markLost
  deriving DecidableEq, Repr

/-- State transition of one operation.  A failed release (double-release
precondition violation) leaves the state unchanged. -/
def step (s : SwapchainState) (op : SwapOp) : SwapchainState :=
  match op with
  | SwapOp.acquire t => (acquireNextImage s t).state
  | SwapOp.release idxs => (releaseImages s idxs).getD s
  | SwapOp.present i => presentImage s i
  | SwapOp.presentDone i => presentComplete s i
  | SwapOp.markLost => markSurfaceLost s

/-- Run a sequence of operations. -/
def run (s : SwapchainState) (ops : List SwapOp) : SwapchainState :=
  ops.foldl step s

/-- Token minted by one operation, when it is a successful acquisition. -/
def stepToken (s : SwapchainState) (op : SwapOp) : Option Nat :=
  match op with
  | SwapOp.acquire t => (acquireNextImage s t).token
  | _ => none

/-- All acquisition tokens minted along a run, in order. -/
def runTokens (s : SwapchainState) : List SwapOp → List Nat
  | [] => []
  | op :: rest => (stepToken s op).toList ++ runTokens (step s op) rest

/-- Capacity of the presentation timing history, from the header:
`static const int kMaxPresentationHistory = 60`. -/
def kMaxPresentationHistory : Nat := 60

/-- One presentation timing record (`VkPastPresentationTimingGOOGLE`). -/
structure VkPastPresentationTimingGOOGLE where
  presentID : Nat
  desiredPresentTime : Nat
  actualPresentTime : Nat
  earliestPresentTime : Nat
  presentMargin : Nat
  deriving DecidableEq, Repr, Inhabited

/-- Presentation timing history: the header's fixed 60-slot array
`_presentTimingHistory` with the head index `_presentHistoryHeadIndex`
(oldest live record) and the live-record count `_presentHistoryCount`. -/
structure TimingHistory where
  slots : List VkPastPresentationTimingGOOGLE
  headIndex : Nat
  count : Nat
  deriving DecidableEq, Repr

/-- Fresh history: all slots hold the default record, nothing recorded. -/
def emptyTimingHistory : TimingHistory :=
  ⟨List.replicate kMaxPresentationHistory default, 0, 0⟩

/-- Modelled from the spec: `recordPresentTime` is declared in the header but
its body is not among the given sources.  Per the spec (sections 3 and 4.5),
the record is appended to the fixed-capacity ring buffer; while the buffer
is not full the record goes into the next free slot and the count grows,
and once full the oldest record's slot is overwritten and the head advances,
evicting that oldest record. -/
def recordPresentTime (h : TimingHistory)
    (r : VkPastPresentationTimingGOOGLE) : TimingHistory :=
  if h.count < kMaxPresentationHistory then
    ⟨h.slots.set ((h.headIndex + h.count) % kMaxPresentationHistory) r,
     h.headIndex, h.count + 1⟩
  else
    ⟨h.slots.set (h.headIndex % kMaxPresentationHistory) r,
     (h.headIndex + 1) % kMaxPresentationHistory, h.count⟩

/-- The records currently held by the ring buffer, oldest first: the `count`
slots starting at the head index, wrapping modulo the capacity. -/
def retrievableTimings (h : TimingHistory) :
    List VkPastPresentationTimingGOOGLE :=
  (List.range h.count).map
    (fun i => h.slots.getD ((h.headIndex + i) % kMaxPresentationHistory)
      default)

/-- Outcome of `getPastPresentationTiming`: result code, count written back,
records copied out, and the history after the returned records are removed
from the unread set. -/
structure TimingReadback where
  result : VkResult
  count : Nat
  records : List VkPastPresentationTimingGOOGLE
  history : TimingHistory
  deriving DecidableEq, Repr

/-- Modelled from the spec: `getPastPresentationTiming` is declared in the
header but its body is not among the given sources.  Per the spec (section
4.5) it follows the same partial-copy contract as image enumeration —
report the true available count when the destination is absent, otherwise
copy up to the capacity, oldest first, signalling incompleteness when
records remain — and removes the returned records from the unread set. -/
def getPastPresentationTiming (h : TimingHistory) (capacity : Nat)
    (hasDest : Bool) : TimingReadback :=
  if ¬ hasDest then
    ⟨VkResult.success, h.count, [], h⟩
  else
    let n := min capacity h.count
    ⟨if capacity < h.count then VkResult.incomplete else VkResult.success,
     n, (retrievableTimings h).take n,
     ⟨h.slots, (h.headIndex + n) % kMaxPresentationHistory, h.count - n⟩⟩

/-- Size in logical points (`CGSize`), with exact rational coordinates in
place of the source's floating-point `CGFloat`. -/
structure CGSize where
  width : ℚ
  height : ℚ
  deriving DecidableEq

/-- The layer state that determines the natural extent: its logical bounds
size and its device pixel scale (`contentsScale`). -/
structure CAMetalLayerModel where
  boundsWidth : ℚ
  boundsHeight : ℚ
  contentsScale : ℚ
  deriving DecidableEq

/-- Round a rational to the nearest integer, ties to the even neighbour
(half-to-even, banker's rounding). -/
def roundHalfEven (x : ℚ) : ℤ :=
  if Int.fract x < 1/2 then ⌊x⌋
  else if 1/2 < Int.fract x then ⌊x⌋ + 1
  else if Even ⌊x⌋ then ⌊x⌋ else ⌊x⌋ + 1

/-- Modelled from the spec: the layer property `naturalDrawableSizeMVK` is
not among the given sources.  Per the header's comment on
`mvkGetNaturalExtent` and the spec, it is the size of the layer's bounds
multiplied by the layer's `contentsScale`, each dimension independently. -/
def naturalDrawableSizeMVK (l : CAMetalLayerModel) : CGSize :=
  ⟨l.boundsWidth * l.contentsScale, l.boundsHeight * l.contentsScale⟩

/-- Modelled from the spec: `mvkVkExtent2DFromCGSize` is not among the given
sources; per the header's comment it rounds each dimension to the nearest
integer with half-to-even rounding. -/
def mvkVkExtent2DFromCGSize (sz : CGSize) : VkExtent2D :=
  ⟨(roundHalfEven sz.width).toNat, (roundHalfEven sz.height).toNat⟩

/-- Natural extent of the layer, translated from the header's support
function: `mvkVkExtent2DFromCGSize(mtlLayer.naturalDrawableSizeMVK)`. -/
def mvkGetNaturalExtent (l : CAMetalLayerModel) : VkExtent2D :=
  mvkVkExtent2DFromCGSize (naturalDrawableSizeMVK l)

/-- Example state for status queries: device error latched, surface also
lost, extents mismatched and no deliberate scaling. -/
def exDevErrState : SwapchainState :=
  ⟨[SwapImageState.available], true, false, 5, VkResult.errorDeviceLost,
   ⟨640, 480⟩, ⟨800, 600⟩⟩

/-- Example state: healthy device, surface lost, extents mismatched. -/
def exLostState : SwapchainState :=
  ⟨[SwapImageState.available, SwapImageState.available], true, false, 5,
   VkResult.success, ⟨640, 480⟩, ⟨800, 600⟩⟩

/-- Example state: healthy device, deliberately scaled, extents mismatched. -/
def exScaledState : SwapchainState :=
  ⟨[SwapImageState.available], false, true, 0, VkResult.success,
   ⟨640, 480⟩, ⟨800, 600⟩⟩

/-- Example state: healthy device, healthy surface, both images held by the
compositor (Presenting), so nothing is Available to acquire. -/
def exBusyState : SwapchainState :=
  ⟨[SwapImageState.presenting, SwapImageState.presenting], false, false, 7,
   VkResult.success, ⟨640, 480⟩, ⟨640, 480⟩⟩

/-- Claim C1: `getSurfaceStatus` evaluates in strict precedence order — a
device configuration error is returned first, even when the surface is also
lost or suboptimal; otherwise surface loss yields surface-lost even when
also suboptimal; otherwise a non-optimal surface yields suboptimal;
otherwise success. -/
theorem getSurfaceStatus_precedence (s : SwapchainState) :
    (s.deviceConfigResult ≠ VkResult.success →
      getSurfaceStatus s = s.deviceConfigResult)
  ∧ (s.deviceConfigResult = VkResult.success → s.surfaceLost = true →
      getSurfaceStatus s = VkResult.errorSurfaceLostKHR)
  ∧ (s.deviceConfigResult = VkResult.success → s.surfaceLost = false →
      hasOptimalSurface s = false →
      getSurfaceStatus s = VkResult.suboptimalKHR)
  ∧ (s.deviceConfigResult = VkResult.success → s.surfaceLost = false →
      hasOptimalSurface s = true →
      getSurfaceStatus s = VkResult.success) := by
  unfold getSurfaceStatus getIsSurfaceLost
  refine ⟨?_, ?_, ?_, ?_⟩ <;> intros <;> simp_all

/-- Witness for C1: in a state where the device reports an error while the
surface is simultaneously lost and suboptimal, the device error wins. -/
theorem getSurfaceStatus_precedence_witness :
    getSurfaceStatus exDevErrState = VkResult.errorDeviceLost :=
  (getSurfaceStatus_precedence exDevErrState).1 (by decide)

/-- Claim C6: `hasOptimalSurface` is true iff the configured extent equals
the surface's natural extent or the caller opted into deliberate scaling,
and under deliberate scaling it is true regardless of any size mismatch. -/
theorem hasOptimalSurface_iff (s : SwapchainState) :
    (hasOptimalSurface s = true ↔
      (s.mtlLayerDrawableExtent = s.layerNaturalExtent ∨
        s.isDeliberatelyScaled = true))
  ∧ (s.isDeliberatelyScaled = true → hasOptimalSurface s = true) := by
  unfold hasOptimalSurface
  constructor
  · simp [Bool.or_eq_true]
    tauto
  · intro h
    simp [h]

/-- Witness for C6: a deliberately scaled swapchain with mismatched extents
still reports an optimal surface. -/
theorem hasOptimalSurface_iff_witness :
    hasOptimalSurface exScaledState = true :=
  (hasOptimalSurface_iff exScaledState).2 (by decide)

/-- Claim C9: image lookup fails (returns no handle) for every index at or
beyond the image count. -/
theorem getPresentableImage_out_of_range (presentableImages : List VkImage)
    (index : Nat) (h : getImageCount presentableImages ≤ index) :
    getPresentableImage presentableImages index = none := by
  unfold getPresentableImage
  unfold getImageCount at h
  exact List.get?_eq_none.mpr h

/-- Witness for C9: looking up index 2 in a two-image swapchain fails. -/
theorem getPresentableImage_out_of_range_witness :
    getPresentableImage [100, 101] 2 = none :=
  getPresentableImage_out_of_range [100, 101] 2 (by decide)

/-- Counterexample for C4: with three images and capacity two, `getImages`
returns incomplete and writes the two-image prefix, but the count it
reports is 2 — the number written — not the true count 3, refuting the
claim that the truncated call reports the true count. -/
theorem getImages_reports_written_counterexample :
    (getImages [100, 101, 102] 2 true).result = VkResult.incomplete ∧
    (getImages [100, 101, 102] 2 true).written = [100, 101] ∧
    getImageCount [100, 101, 102] = 3 ∧
    (getImages [100, 101, 102] 2 true).count = 2 ∧
    (getImages [100, 101, 102] 2 true).count ≠
      getImageCount [100, 101, 102] := by
  decide

/-- Claim C4 (amended): with a null destination `getImages` reports the true
count and writes nothing; with capacity K below the true count it returns
incomplete, writes exactly K entries forming the index-order prefix of the
images, and reports K — the number of entries written — rather than the
true count; with sufficient capacity it succeeds, writes all images and
reports the true count. -/
theorem getImages_contract (presentableImages : List VkImage)
    (capacity : Nat) (hasDest : Bool) :
    (hasDest = false →
      getImages presentableImages capacity hasDest =
        ⟨VkResult.success, getImageCount presentableImages, []⟩)
  ∧ (hasDest = true → capacity < getImageCount presentableImages →
      (getImages presentableImages capacity hasDest).result =
        VkResult.incomplete ∧
      (getImages presentableImages capacity hasDest).written =
        presentableImages.take capacity ∧
      (getImages presentableImages capacity hasDest).written.length =
        capacity ∧
      (getImages presentableImages capacity hasDest).count = capacity)
  ∧ (hasDest = true → getImageCount presentableImages ≤ capacity →
      (getImages presentableImages capacity hasDest).result =
        VkResult.success ∧
      (getImages presentableImages capacity hasDest).written =
        presentableImages ∧
      (getImages presentableImages capacity hasDest).count =
        getImageCount presentableImages) := by
  unfold getImages getImageCount
  refine ⟨?_, ?_, ?_⟩
  · intro hd
    simp [hd]
  · intro hd hcap
    simp [hd, hcap, Nat.min_eq_left (Nat.le_of_lt hcap), List.length_take,
      Nat.not_le.mpr hcap]
  · intro hd hcap
    simp [hd, Nat.not_lt.mpr hcap, Nat.min_eq_right hcap,
      List.take_of_length_le hcap]

/-- Witness for C4: the truncated call on three images with capacity two
writes the prefix of length two and reports two. -/
theorem getImages_contract_witness :
    (getImages [100, 101, 102] 2 true).result = VkResult.incomplete ∧
    (getImages [100, 101, 102] 2 true).written =
      List.take 2 [100, 101, 102] ∧
    (getImages [100, 101, 102] 2 true).written.length = 2 ∧
    (getImages [100, 101, 102] 2 true).count = 2 :=
  (getImages_contract [100, 101, 102] 2 true).2.1 rfl (by decide)

/-- Claim C7: a timed-out acquisition (not-ready for a zero timeout, timeout
otherwise) is state-preserving: no image is acquired, no token is minted and
the post-call state equals the pre-call state, so the call is retryable. -/
theorem acquireNextImage_timeout_preserves_state (s : SwapchainState)
    (timeout : Nat)
    (h : (acquireNextImage s timeout).result = VkResult.notReady ∨
         (acquireNextImage s timeout).result = VkResult.timeout) :
    (acquireNextImage s timeout).state = s ∧
    (acquireNextImage s timeout).imageIndex = none ∧
    (acquireNextImage s timeout).token = none := by
  unfold acquireNextImage at *
  by_cases hdev : s.deviceConfigResult ≠ VkResult.success
  · simp [hdev]
  · by_cases hlost : getIsSurfaceLost s = true
    · simp [hdev, hlost] at h
    · rcases hfa : firstAvailableIndex s.imageStates with _ | i
      · simp [hdev, hlost, hfa]
      · rw [if_neg hdev, if_neg (by simp [hlost])] at h
        rw [hfa] at h
        rcases h with h | h <;>
          rcases hopt : hasOptimalSurface s <;> simp [hopt] at h

/-- Witness for C7: with every image Presenting and a zero timeout, the call
returns not-ready and the state is unchanged. -/
theorem acquireNextImage_timeout_preserves_state_witness :
    (acquireNextImage exBusyState 0).state = exBusyState ∧
    (acquireNextImage exBusyState 0).imageIndex = none ∧
    (acquireNextImage exBusyState 0).token = none :=
  acquireNextImage_timeout_preserves_state exBusyState 0 (Or.inl (by decide))

/-- The acquisition outcome's state never changes the surface-lost flag or
the device configuration result, and never decreases the counter. -/
lemma acquireNextImage_state_fields (s : SwapchainState) (t : Nat) :
    (acquireNextImage s t).state.surfaceLost = s.surfaceLost ∧
    (acquireNextImage s t).state.deviceConfigResult = s.deviceConfigResult ∧
    s.currentAcquisitionID ≤
      (acquireNextImage s t).state.currentAcquisitionID := by
  unfold acquireNextImage getNextAcquisitionID
  by_cases hdev : s.deviceConfigResult ≠ VkResult.success
  · simp [hdev]
  · by_cases hlost : getIsSurfaceLost s = true
    · simp [hdev, hlost]
    · rcases hfa : firstAvailableIndex s.imageStates with _ | i <;>
        simp [hdev, hlost, hfa]

/-- One step never clears the surface-lost flag, never changes the device
configuration result, and never decreases the acquisition counter. -/
lemma step_fields (s : SwapchainState) (op : SwapOp) :
    (s.surfaceLost = true → (step s op).surfaceLost = true) ∧
    (step s op).deviceConfigResult = s.deviceConfigResult ∧
    s.currentAcquisitionID ≤ (step s op).currentAcquisitionID := by
  cases op with
  | acquire t =>
      have h := acquireNextImage_state_fields s t
      exact ⟨fun hl => h.1 ▸ hl, h.2.1, h.2.2⟩
  | release idxs =>
      unfold step releaseImages
      by_cases h : idxs.all (fun i => imageHeld s i) = true <;> simp [h]
  | present i =>
      simp only [step]
      unfold presentImage
      split <;> simp
  | presentDone i =>
      simp only [step]
      unfold presentComplete
      split <;> simp
  | markLost =>
      unfold step markSurfaceLost
      simp

/-- Run-level closure of `step_fields`. -/
lemma run_fields (ops : List SwapOp) (s : SwapchainState) :
    (s.surfaceLost = true → (run s ops).surfaceLost = true) ∧
    (run s ops).deviceConfigResult = s.deviceConfigResult ∧
    s.currentAcquisitionID ≤ (run s ops).currentAcquisitionID := by
  induction ops generalizing s with
  | nil => exact ⟨fun h => h, rfl, Nat.le_refl _⟩
  | cons op rest ih =>
      have h1 := step_fields s op
      have h2 := ih (step s op)
      exact ⟨fun hl => h2.1 (h1.1 hl), h2.2.1.trans h1.2.1,
        h1.2.2.trans h2.2.2⟩

/-- Acquisition on a lost surface with a healthy device fails with the
surface-lost result and leaves the state unchanged. -/
lemma acquireNextImage_lost (s : SwapchainState)
    (hdev : s.deviceConfigResult = VkResult.success)
    (hlost : s.surfaceLost = true) (t : Nat) :
    (acquireNextImage s t).result = VkResult.errorSurfaceLostKHR ∧
    (acquireNextImage s t).state = s := by
  unfold acquireNextImage
  simp [hdev, getIsSurfaceLost, hlost]

/-- Claim C2: surface loss is sticky — once the flag is set it stays set for
every subsequent run of operations — and after `markSurfaceLost` every
subsequent `acquireNextImage` (with the device healthy) fails with
surface-lost, regardless of how many images are Available. -/
theorem surfaceLost_sticky (s : SwapchainState) (ops : List SwapOp) :
    (s.surfaceLost = true → (run s ops).surfaceLost = true)
  ∧ (s.deviceConfigResult = VkResult.success →
      ∀ t, (acquireNextImage (run (markSurfaceLost s) ops) t).result =
        VkResult.errorSurfaceLostKHR) := by
  refine ⟨(run_fields ops s).1, fun hdev t => ?_⟩
  have hfields := run_fields ops (markSurfaceLost s)
  have hlost : (run (markSurfaceLost s) ops).surfaceLost = true :=
    hfields.1 rfl
  have hdev2 : (run (markSurfaceLost s) ops).deviceConfigResult =
      VkResult.success := by
    rw [hfields.2.1]
    exact hdev
  exact (acquireNextImage_lost _ hdev2 hlost t).1

/-- Witness for C2: a healthy swapchain is marked lost, then images are
released and presented; the acquisition that follows still fails with
surface-lost even though image 0 is Available. -/
theorem surfaceLost_sticky_witness :
    (acquireNextImage
      (run (markSurfaceLost exBusyState)
        [SwapOp.presentDone 0, SwapOp.presentDone 1]) 100).result =
      VkResult.errorSurfaceLostKHR :=
  (surfaceLost_sticky exBusyState
    [SwapOp.presentDone 0, SwapOp.presentDone 1]).2 rfl 100

/-- A minted token equals the pre-state counter plus one, and the post-state
counter equals the token. -/
lemma stepToken_eq (s : SwapchainState) (op : SwapOp) (t : Nat)
    (h : stepToken s op = some t) :
    t = s.currentAcquisitionID + 1 ∧
    (step s op).currentAcquisitionID = s.currentAcquisitionID + 1 := by
  cases op with
  | acquire tmo =>
      unfold stepToken at h
      unfold step
      unfold acquireNextImage getNextAcquisitionID at *
      by_cases hdev : s.deviceConfigResult ≠ VkResult.success
      · simp [hdev] at h
      · by_cases hlost : getIsSurfaceLost s = true
        · simp [hdev, hlost] at h
        · rcases hfa : firstAvailableIndex s.imageStates with _ | i <;>
            simp [hdev, hlost, hfa] at h ⊢
          exact h.symm
  | release idxs => simp [stepToken] at h
  | present i => simp [stepToken] at h
  | presentDone i => simp [stepToken] at h
  | markLost => simp [stepToken] at h

/-- Tokens minted along a run are pairwise increasing and all exceed the
starting counter. -/
lemma runTokens_mono (ops : List SwapOp) (s : SwapchainState) :
    List.Pairwise (fun a b => a < b) (runTokens s ops) ∧
    ∀ t ∈ runTokens s ops, s.currentAcquisitionID < t := by
  induction ops generalizing s with
  | nil => simp [runTokens]
  | cons op rest ih =>
      have hmono := (step_fields s op).2.2
      have ihs := ih (step s op)
      rcases htok : stepToken s op with _ | tok
      · refine ⟨by simpa [runTokens, htok] using ihs.1, ?_⟩
        intro t ht
        simp [runTokens, htok] at ht
        exact Nat.lt_of_le_of_lt hmono (ihs.2 t ht)
      · have heq := stepToken_eq s op tok htok
        constructor
        · simp only [runTokens, htok, Option.toList_some, List.singleton_append,
            List.pairwise_cons]
          refine ⟨fun t ht => ?_, ihs.1⟩
          have := ihs.2 t ht
          rw [heq.2] at this
          rw [heq.1]
          exact this
        · intro t ht
          simp only [runTokens, htok, Option.toList_some,
            List.singleton_append, List.mem_cons] at ht
          rcases ht with rfl | ht
          · rw [heq.1]
            exact Nat.lt_succ_self _
          · have := ihs.2 t ht
            rw [heq.2] at this
            exact Nat.lt_of_succ_lt this

/-- Claim C3: across every sequence of acquire, release, present and
surface operations, the tokens minted by successful acquisitions are
strictly increasing — each later token exceeds every earlier one, so no two
acquisitions ever share a token value. -/
theorem runTokens_strictly_increasing (s : SwapchainState)
    (ops : List SwapOp) :
    List.Pairwise (fun a b => a < b) (runTokens s ops) :=
  (runTokens_mono ops s).1

/-- Folding image releases over a list of indices preserves the length of
the image-state vector. -/
lemma foldl_set_length (indices : List Nat) (l : List SwapImageState) :
    (indices.foldl (fun imgs i => imgs.set i SwapImageState.available)
      l).length = l.length := by
  induction indices generalizing l with
  | nil => rfl
  | cons j rest ih => simp [ih, List.length_set]

/-- An index not in the release list is untouched by the fold. -/
lemma foldl_set_get?_not_mem (indices : List Nat) (l : List SwapImageState)
    (i : Nat) (h : i ∉ indices) :
    (indices.foldl (fun imgs j => imgs.set j SwapImageState.available)
      l).get? i = l.get? i := by
  induction indices generalizing l with
  | nil => rfl
  | cons j rest ih =>
      simp only [List.foldl_cons]
      rw [ih (l.set j SwapImageState.available)
        (fun hm => h (List.mem_cons_of_mem j hm))]
      exact List.get?_set_ne _ _ (fun hj => h (hj ▸ List.mem_cons_self j rest))

/-- An in-range index in the release list reads back Available after the
fold. -/
lemma foldl_set_get?_mem (indices : List Nat) (l : List SwapImageState)
    (i : Nat) (hmem : i ∈ indices) (hlen : i < l.length) :
    (indices.foldl (fun imgs j => imgs.set j SwapImageState.available)
      l).get? i = some SwapImageState.available := by
  induction indices generalizing l with
  | nil => cases hmem
  | cons j rest ih =>
      simp only [List.foldl_cons]
      by_cases hr : i ∈ rest
      · exact ih (l.set j SwapImageState.available) hr
          (by simpa [List.length_set] using hlen)
      · have hij : i = j := by
          rcases List.mem_cons.mp hmem with h | h
          · exact h
          · exact absurd h hr
        subst hij
        rw [foldl_set_get?_not_mem rest _ i hr]
        exact List.get?_set_eq_of_lt _ (by simpa [List.length_set] using hlen)

/-- Claim C8: `releaseImages` requires every listed image to be currently
held (Acquired or Presenting) and transitions each to Available; if any
listed image is already Available the call is rejected as a double-release
instead of silently succeeding. -/
theorem releaseImages_contract (s : SwapchainState) (indices : List Nat) :
    ((∀ i ∈ indices, imageHeld s i = true) →
      ∃ s2, releaseImages s indices = some s2 ∧
        ∀ i ∈ indices,
          s2.imageStates.get? i = some SwapImageState.available)
  ∧ ((∃ i ∈ indices,
        s.imageStates.get? i = some SwapImageState.available) →
      releaseImages s indices = none) := by
  constructor
  · intro hall
    unfold releaseImages
    rw [if_pos (List.all_eq_true.mpr (fun i hi => hall i hi))]
    refine ⟨_, rfl, fun i hi => ?_⟩
    have hheld := hall i hi
    have hlt : i < s.imageStates.length := by
      unfold imageHeld at hheld
      rcases Bool.or_eq_true_iff.mp hheld with h | h
      · rcases List.get?_eq_some.mp (of_decide_eq_true h) with ⟨hl, _⟩
        exact hl
      · rcases List.get?_eq_some.mp (of_decide_eq_true h) with ⟨hl, _⟩
        exact hl
    simpa using foldl_set_get?_mem indices s.imageStates i hi hlt
  · rintro ⟨i, hi, havail⟩
    unfold releaseImages
    rw [if_neg]
    intro hall
    have := List.all_eq_true.mp hall i hi
    unfold imageHeld at this
    rw [havail] at this
    simp at this

/-- Witness for C8: releasing both Presenting images of the busy example
state succeeds and leaves both Available, while releasing an Available
image of the released state is rejected. -/
theorem releaseImages_contract_witness :
    (∃ s2, releaseImages exBusyState [0, 1] = some s2 ∧
      ∀ i ∈ [0, 1],
        s2.imageStates.get? i = some SwapImageState.available) ∧
    releaseImages exLostState [0] = none :=
  ⟨(releaseImages_contract exBusyState [0, 1]).1 (by decide),
   (releaseImages_contract exLostState [0]).2 ⟨0, by decide, by decide⟩⟩

/-- Tracking invariant for the timing ring buffer: after the records `rs`
have been recorded in order, the buffer holds exactly the last (up to 60)
of them, oldest first, with the head and count fields in their canonical
positions. -/
def historyTracks (rs : List VkPastPresentationTimingGOOGLE)
    (h : TimingHistory) : Prop :=
  h.slots.length = kMaxPresentationHistory ∧
  h.count = min rs.length kMaxPresentationHistory ∧
  h.headIndex = (rs.length - h.count) % kMaxPresentationHistory ∧
  retrievableTimings h = rs.drop (rs.length - kMaxPresentationHistory)

/-- The fresh history tracks the empty record sequence. -/
lemma historyTracks_nil : historyTracks [] emptyTimingHistory := by
  refine ⟨by simp [emptyTimingHistory], by simp [emptyTimingHistory],
    by simp [emptyTimingHistory], ?_⟩
  simp [retrievableTimings, emptyTimingHistory]

/-- Recording one more entry preserves the tracking invariant. -/
lemma historyTracks_record (rs : List VkPastPresentationTimingGOOGLE)
    (h : TimingHistory) (r : VkPastPresentationTimingGOOGLE)
    (ht : historyTracks rs h) :
    historyTracks (rs ++ [r]) (recordPresentTime h r) := by
  obtain ⟨hlen, hcount, hhead, hretr⟩ := ht
  simp only [kMaxPresentationHistory] at hlen hcount hhead
  by_cases hfull : h.count < 60
  · have hn : rs.length < 60 := by omega
    have hcnt : h.count = rs.length := by omega
    have hh0 : h.headIndex = 0 := by omega
    rw [recordPresentTime,
      if_pos (by simpa [kMaxPresentationHistory] using hfull)]
    refine ⟨by simp [kMaxPresentationHistory, List.length_set, hlen], ?_, ?_, ?_⟩
    · simp only [kMaxPresentationHistory, List.length_append,
        List.length_singleton]
      omega
    · simp only [kMaxPresentationHistory, List.length_append,
        List.length_singleton]
      omega
    · have hretr2 :
          (List.range rs.length).map
            (fun i => h.slots.getD ((h.headIndex + i) % 60) default) = rs := by
        have := hretr
        unfold retrievableTimings at this
        simp only [kMaxPresentationHistory] at this
        rw [hcnt] at this
        rw [this, show rs.length - 60 = 0 from by omega, List.drop_zero]
      unfold retrievableTimings
      simp only [kMaxPresentationHistory, hcnt, hh0, Nat.zero_add]
      rw [List.range_succ, List.map_append]
      have hlast :
          (h.slots.set (rs.length % 60) r).getD (rs.length % 60) default
            = r := by
        rw [List.getD_eq_getD_get?,
          List.get?_set_eq_of_lt r (by omega :
            rs.length % 60 < h.slots.length)]
        rfl
      have hfront :
          (List.range rs.length).map
            (fun i => (h.slots.set (rs.length % 60) r).getD (i % 60) default)
          = (List.range rs.length).map
            (fun i => h.slots.getD ((0 + i) % 60) default) := by
        apply List.map_congr_left
        intro i hi
        have hilt : i < rs.length := List.mem_range.mp hi
        rw [Nat.zero_add, List.getD_eq_getD_get?, List.getD_eq_getD_get?,
          List.get?_set_ne r h.slots (by omega : rs.length % 60 ≠ i % 60)]
      rw [hfront]
      simp only [hh0, Nat.zero_add] at hretr2
      simp only [Nat.zero_add]
      rw [hretr2]
      simp only [List.map_cons, List.map_nil]
      rw [hlast]
      rw [show (rs ++ [r]).length - 60 = 0 from by
        simp only [List.length_append, List.length_singleton]; omega,
        List.drop_zero]
  · have hcnt : h.count = 60 := by omega
    have hn : 60 ≤ rs.length := by omega
    have hhlt : h.headIndex < 60 := by omega
    rw [recordPresentTime,
      if_neg (by simp only [kMaxPresentationHistory]; omega)]
    refine ⟨by simp [kMaxPresentationHistory, List.length_set, hlen], ?_, ?_, ?_⟩
    · simp only [kMaxPresentationHistory, List.length_append,
        List.length_singleton]
      omega
    · simp only [kMaxPresentationHistory, List.length_append,
        List.length_singleton]
      omega
    · have hidx : h.headIndex % 60 = h.headIndex := Nat.mod_eq_of_lt hhlt
      have hretr2 :
          (List.range 60).map
            (fun i => h.slots.getD ((h.headIndex + i) % 60) default)
            = rs.drop (rs.length - 60) := by
        have := hretr
        unfold retrievableTimings at this
        simp only [kMaxPresentationHistory] at this
        rw [hcnt] at this
        exact this
      unfold retrievableTimings
      simp only [kMaxPresentationHistory, hcnt, hidx, Nat.mod_add_mod]
      have hdropapp :
          (rs ++ [r]).drop ((rs ++ [r]).length - 60)
            = rs.drop (rs.length - 59) ++ [r] := by
        rw [show (rs ++ [r]).length - 60 = rs.length - 59 from by
          simp only [List.length_append, List.length_singleton]; omega]
        exact List.drop_append_of_le_length (by omega)
      rw [hdropapp]
      have hsplit : rs.drop (rs.length - 59)
          = (rs.drop (rs.length - 60)).drop 1 := by
        rw [List.drop_drop]
        congr 1
        omega
      rw [hsplit, ← hretr2]
      have hdecomp :
          ((List.range 60).map
            (fun i => h.slots.getD ((h.headIndex + i) % 60) default)).drop 1
          = (List.range 59).map
            (fun i => h.slots.getD ((h.headIndex + (i + 1)) % 60) default) := by
        rw [List.range_succ_eq_map 59, List.map_cons, List.drop_succ_cons,
          List.drop_zero, List.map_map]
        apply List.map_congr_left
        intro i hi
        simp [Function.comp, Nat.succ_eq_add_one]
      rw [hdecomp]
      rw [List.range_succ 59, List.map_append]
      have hlast :
          (h.slots.set h.headIndex r).getD ((h.headIndex + 1 + 59) % 60)
            default = r := by
        rw [show (h.headIndex + 1 + 59) % 60 = h.headIndex from by omega,
          List.getD_eq_getD_get?,
          List.get?_set_eq_of_lt r (by omega : h.headIndex < h.slots.length)]
        rfl
      have hfront :
          (List.range 59).map
            (fun i => (h.slots.set h.headIndex r).getD
              ((h.headIndex + 1 + i) % 60) default)
          = (List.range 59).map
            (fun i => h.slots.getD ((h.headIndex + (i + 1)) % 60) default) := by
        apply List.map_congr_left
        intro i hi
        have hilt : i < 59 := List.mem_range.mp hi
        rw [List.getD_eq_getD_get?, List.getD_eq_getD_get?,
          List.get?_set_ne r h.slots
            (by omega : h.headIndex ≠ (h.headIndex + 1 + i) % 60),
          show h.headIndex + 1 + i = h.headIndex + (i + 1) from by omega]
      rw [hfront]
      simp only [List.map_cons, List.map_nil]
      rw [hlast]

/-- After recording any sequence of records into a fresh history, the
tracking invariant holds. -/
lemma historyTracks_foldl (rs : List VkPastPresentationTimingGOOGLE) :
    historyTracks rs (rs.foldl recordPresentTime emptyTimingHistory) := by
  induction rs using List.reverseRecOn with
  | nil => exact historyTracks_nil
  | append_singleton rs r ih =>
      rw [List.foldl_append]
      exact historyTracks_record rs _ r ih

/-- Concrete sequence of 61 pairwise distinct timing records. -/
def demoTimingRecords : List VkPastPresentationTimingGOOGLE :=
  (List.range 61).map (fun k => ⟨k, 0, 0, 0, 0⟩)

/-- Claim C5: the presentation timing history is a 60-record ring buffer —
it never holds more than 60 records, and after recording 61 records in
sequence exactly the 60 most recent are retrievable, in order, via
`getPastPresentationTiming`, while the oldest record has been evicted. -/
theorem presentationHistory_ring (rs : List VkPastPresentationTimingGOOGLE) :
    (rs.foldl recordPresentTime emptyTimingHistory).count ≤
      kMaxPresentationHistory
  ∧ (rs.length = kMaxPresentationHistory + 1 →
      retrievableTimings (rs.foldl recordPresentTime emptyTimingHistory) =
        rs.drop 1
      ∧ (getPastPresentationTiming
          (rs.foldl recordPresentTime emptyTimingHistory)
          (kMaxPresentationHistory + 1) true).records = rs.drop 1
      ∧ (∀ r0, rs.Nodup → rs.get? 0 = some r0 →
          r0 ∉ retrievableTimings
            (rs.foldl recordPresentTime emptyTimingHistory))) := by
  obtain ⟨hlen, hcount, hhead, hretr⟩ := historyTracks_foldl rs
  constructor
  · rw [hcount]
    exact Nat.min_le_right _ _
  · intro h61
    have hdrop : retrievableTimings
        (rs.foldl recordPresentTime emptyTimingHistory) = rs.drop 1 := by
      rw [hretr, h61]
      simp [kMaxPresentationHistory]
    refine ⟨hdrop, ?_, ?_⟩
    · unfold getPastPresentationTiming
      simp only [kMaxPresentationHistory] at hcount h61 ⊢
      rw [if_neg (by simp)]
      have hcnt60 : (rs.foldl recordPresentTime emptyTimingHistory).count =
          60 := by omega
      simp only [hcnt60, hdrop]
      rw [show (60 + 1) ⊓ 60 = 60 from rfl]
      exact List.take_of_length_le (by simp [List.length_drop, h61])
    · intro r0 hnodup hget
      rw [hdrop]
      rcases rs with _ | ⟨a, tail⟩
      · simp at h61
      · have ha : a = r0 := by simpa using hget
        subst ha
        rw [List.drop_succ_cons, List.drop_zero]
        exact (List.nodup_cons.mp hnodup).1

/-- Witness for C5: after recording the 61 concrete records, exactly records
1 through 60 are retrievable, in order. -/
theorem presentationHistory_ring_witness :
    retrievableTimings
      (demoTimingRecords.foldl recordPresentTime emptyTimingHistory) =
      demoTimingRecords.drop 1 :=
  ((presentationHistory_ring demoTimingRecords).2 (by decide)).1

/-- Case analysis of `roundHalfEven`: below a half-fraction it floors, above
it ceils, and on an exact tie it picks the even neighbour. -/
lemma roundHalfEven_cases (x : ℚ) :
    (Int.fract x < 1 / 2 ∧ roundHalfEven x = ⌊x⌋) ∨
    (1 / 2 < Int.fract x ∧ roundHalfEven x = ⌊x⌋ + 1) ∨
    (Int.fract x = 1 / 2 ∧
      (roundHalfEven x = ⌊x⌋ ∨ roundHalfEven x = ⌊x⌋ + 1) ∧
      Even (roundHalfEven x)) := by
  unfold roundHalfEven
  by_cases h1 : Int.fract x < 1 / 2
  · exact Or.inl ⟨h1, by rw [if_pos h1]⟩
  · by_cases h2 : 1 / 2 < Int.fract x
    · exact Or.inr (Or.inl ⟨h2, by rw [if_neg h1, if_pos h2]⟩)
    · have heq : Int.fract x = 1 / 2 :=
        le_antisymm (not_lt.mp h2) (not_lt.mp h1)
      refine Or.inr (Or.inr ⟨heq, ?_, ?_⟩)
      · rw [if_neg h1, if_neg h2]
        by_cases he : Even ⌊x⌋
        · exact Or.inl (if_pos he)
        · exact Or.inr (if_neg he)
      · rw [if_neg h1, if_neg h2]
        by_cases he : Even ⌊x⌋
        · rw [if_pos he]
          exact he
        · rw [if_neg he]
          exact Int.even_add_one.mpr he

/-- Distance from a rational to its floor, as an absolute value. -/
lemma abs_sub_floor_rat (x : ℚ) : |x - (⌊x⌋ : ℚ)| = Int.fract x := by
  rw [Int.self_sub_floor, abs_of_nonneg (Int.fract_nonneg x)]

/-- Distance from a rational to its floor plus one, as an absolute value. -/
lemma abs_sub_floor_add_one_rat (x : ℚ) :
    |x - ((⌊x⌋ : ℚ) + 1)| = 1 - Int.fract x := by
  have hself := Int.self_sub_floor x
  have h1 : Int.fract x < 1 := Int.fract_lt_one x
  have hx : x - ((⌊x⌋ : ℚ) + 1) = Int.fract x - 1 := by
    rw [← hself]
    ring
  rw [hx, abs_of_nonpos (by linarith), neg_sub]

/-- The half-to-even rounding is within one half of its argument. -/
lemma abs_sub_roundHalfEven (x : ℚ) :
    |x - (roundHalfEven x : ℚ)| ≤ 1 / 2 := by
  have h0 := Int.fract_nonneg x
  have h1 := Int.fract_lt_one x
  rcases roundHalfEven_cases x with ⟨hf, hr⟩ | ⟨hf, hr⟩ | ⟨hf, hr, _⟩
  · rw [hr, abs_sub_floor_rat]
    linarith
  · rw [hr]
    push_cast
    rw [abs_sub_floor_add_one_rat]
    linarith
  · rcases hr with hr | hr
    · rw [hr, abs_sub_floor_rat, hf]
    · rw [hr]
      push_cast
      rw [abs_sub_floor_add_one_rat, hf]
      norm_num

/-- The half-to-even rounding is at least as close to the argument as any
other integer. -/
lemma roundHalfEven_nearest (x : ℚ) (m : ℤ) :
    |x - (roundHalfEven x : ℚ)| ≤ |x - (m : ℚ)| := by
  have h0 := Int.fract_nonneg x
  have h1 := Int.fract_lt_one x
  have hself := Int.self_sub_floor x
  have hm : Int.fract x ≤ |x - (m : ℚ)| ∨
      1 - Int.fract x ≤ |x - (m : ℚ)| := by
    rcases le_or_lt m ⌊x⌋ with hle | hgt
    · left
      have hcast : (m : ℚ) ≤ (⌊x⌋ : ℚ) := by exact_mod_cast hle
      have : Int.fract x ≤ x - (m : ℚ) := by
        rw [← hself]
        linarith
      exact this.trans (le_abs_self _)
    · right
      have hm1 : (⌊x⌋ : ℚ) + 1 ≤ (m : ℚ) := by exact_mod_cast hgt
      have : 1 - Int.fract x ≤ (m : ℚ) - x := by
        rw [← hself]
        linarith
      calc 1 - Int.fract x ≤ (m : ℚ) - x := this
        _ ≤ |(m : ℚ) - x| := le_abs_self _
        _ = |x - (m : ℚ)| := abs_sub_comm _ _
  rcases roundHalfEven_cases x with ⟨hf, hr⟩ | ⟨hf, hr⟩ | ⟨hf, hr, _⟩
  · rw [hr, abs_sub_floor_rat]
    rcases hm with hm | hm
    · exact hm
    · linarith
  · rw [hr]
    push_cast
    rw [abs_sub_floor_add_one_rat]
    rcases hm with hm | hm
    · linarith
    · exact hm
  · have habs : |x - (roundHalfEven x : ℚ)| = 1 / 2 := by
      rcases hr with hr | hr
      · rw [hr, abs_sub_floor_rat, hf]
      · rw [hr]
        push_cast
        rw [abs_sub_floor_add_one_rat, hf]
        norm_num
    rw [habs]
    rcases hm with hm | hm
    · rw [hf] at hm
      exact hm
    · rw [hf] at hm
      linarith

/-- On an exact tie the half-to-even rounding returns an even integer. -/
lemma roundHalfEven_tie (x : ℚ) (h : Int.fract x = 1 / 2) :
    Even (roundHalfEven x) := by
  rcases roundHalfEven_cases x with ⟨hf, _⟩ | ⟨hf, _⟩ | ⟨_, _, he⟩
  · rw [h] at hf
    linarith
  · rw [h] at hf
    linarith
  · exact he

/-- A nonnegative rational rounds to a nonnegative integer. -/
lemma roundHalfEven_nonneg (x : ℚ) (hx : 0 ≤ x) : 0 ≤ roundHalfEven x := by
  have hfl : 0 ≤ ⌊x⌋ := Int.floor_nonneg.mpr hx
  unfold roundHalfEven
  split
  · exact hfl
  · split
    · omega
    · split
      · exact hfl
      · omega

/-- Example layer whose width dimension hits an exact tie: bounds width
41/4 at scale 2 gives 20.5, which banker's rounding takes to 20. -/
def exLayer : CAMetalLayerModel := ⟨41 / 4, 3, 2⟩

/-- Claim C10: the natural extent equals, in each dimension independently,
the layer's logical bounds multiplied by its device pixel scale factor,
rounded to the nearest integer with round-half-to-even: the rounding is
within one half of the product, at least as close as any other integer, and
even on exact ties. -/
theorem mvkGetNaturalExtent_half_even (l : CAMetalLayerModel)
    (hw : 0 ≤ l.boundsWidth * l.contentsScale)
    (hh : 0 ≤ l.boundsHeight * l.contentsScale) :
    (((mvkGetNaturalExtent l).width : ℤ) =
      roundHalfEven (l.boundsWidth * l.contentsScale))
  ∧ (((mvkGetNaturalExtent l).height : ℤ) =
      roundHalfEven (l.boundsHeight * l.contentsScale))
  ∧ (∀ x : ℚ, |x - (roundHalfEven x : ℚ)| ≤ 1 / 2
      ∧ (∀ m : ℤ, |x - (roundHalfEven x : ℚ)| ≤ |x - (m : ℚ)|)
      ∧ (Int.fract x = 1 / 2 → Even (roundHalfEven x))) := by
  refine ⟨?_, ?_, fun x => ⟨abs_sub_roundHalfEven x,
    fun m => roundHalfEven_nearest x m, fun htie => roundHalfEven_tie x htie⟩⟩
  · unfold mvkGetNaturalExtent mvkVkExtent2DFromCGSize naturalDrawableSizeMVK
    exact Int.toNat_of_nonneg (roundHalfEven_nonneg _ hw)
  · unfold mvkGetNaturalExtent mvkVkExtent2DFromCGSize naturalDrawableSizeMVK
    exact Int.toNat_of_nonneg (roundHalfEven_nonneg _ hh)

/-- Witness for C10: the example layer's width dimension, an exact tie at
20.5, rounds half-to-even. -/
theorem mvkGetNaturalExtent_half_even_witness :
    ((mvkGetNaturalExtent exLayer).width : ℤ) =
      roundHalfEven (exLayer.boundsWidth * exLayer.contentsScale) :=
  (mvkGetNaturalExtent_half_even exLayer (by norm_num [exLayer])
    (by norm_num [exLayer])).1
